import Mathlib

/-!
Verification of the task-management tools and the conversational tool-calling
loop of the `python-ai-playground` repository (`src/tools.py` and
`src/ollama-example.py`), as a shallow embedding in Lean 4.

The Python task store `_tasks` is a `dict` from task name to a record
`{name, description, completed}`.  Python dictionaries preserve insertion
order and update a key in place, so the store is embedded as an ordered
association list of `Task` records in which an existing name is overwritten
in place and a fresh name is appended at the end.
-/

namespace Playground

/-- One record of the `_tasks` dictionary in `tools.py`: the value stored for
a key repeats the name and carries the description and a completed flag. -/
structure Task where
  mk ::
  tname : String
  description : String
  completed : Bool
deriving Repr, DecidableEq

/-- The in-memory task store `_tasks`, an insertion-ordered mapping. -/
abbrev TaskStore := List Task

/-- Membership test of a name in the store, Python's `name in _tasks`. -/
def memStore (ts : TaskStore) (n : String) : Bool :=
  ts.any (fun t => t.tname = n)

/-- Assignment `_tasks[name] = value`: overwrite in place when the key exists, append
otherwise (Python dict assignment keeps the original position of an
existing key). -/
def storeSet (ts : TaskStore) (t : Task) : TaskStore :=
  if memStore ts t.tname then
    ts.map (fun u => if u.tname = t.tname then t else u)
  else
    ts ++ [t]

/-- Function `add_task(name, description)` from `tools.py`: stores a fresh record with
`completed = False` and returns a success message. The store is threaded
explicitly; the Python `print` debug line is I/O and not part of the state. -/
def add_task (ts : TaskStore) (n description : String) : String × TaskStore :=
  ("Task '" ++ n ++ "' added successfully. Task description is: " ++ description,
   storeSet ts (Task.mk n description false))

/-- The line `list_tasks` renders for one task. -/
def taskLine (t : Task) : String :=
  let status := if t.completed then "✅ Done" else "⏳ Pending"
  "- " ++ t.tname ++ ": " ++ t.description ++ " (" ++ status ++ ")"

/-- Function `list_tasks()` from `tools.py`. -/
def list_tasks (ts : TaskStore) : String :=
  if ts.isEmpty then "No tasks found."
  else "Current tasks:\n" ++ String.intercalate "\n" (ts.map taskLine)

/-- Function `mark_task_done(name)` from `tools.py`: returns a not-found message and
leaves the store alone when the name is absent; otherwise sets the task's
completed flag and returns a confirmation. -/
def mark_task_done (ts : TaskStore) (n : String) : String × TaskStore :=
  if memStore ts n then
    ("Task '" ++ n ++ "' marked as completed.",
     ts.map (fun t => if t.tname = n then Task.mk t.tname t.description true else t))
  else
    ("Task '" ++ n ++ "' not found.", ts)

/-- Function `has_task(name)` from `tools.py`. -/
def has_task (ts : TaskStore) (n : String) : Bool :=
  memStore ts n

/-! ## Tool dispatch (`execute_tool_call` in `tools.py`)

An argument bag (the JSON-decoded `arguments` dictionary) is embedded as an
association list of string keys to string values — every parameter of every
registered tool is declared of type string in `TOOLS`. -/

/-- The keys of `tool_functions` in `execute_tool_call`. -/
def registeredTools : List String :=
  ["add_task", "list_tasks", "mark_task_done", "has_task"]

/-- Dictionary lookup in an argument bag. -/
def lookupArg (args : List (String × String)) (k : String) : Option String :=
  (args.find? (fun p => p.fst = k)).map Prod.snd

/-- Python keyword-argument unpacking `func(**arguments)` succeeds exactly
when the bag's keys coincide with the function's parameter names (all
parameters here are required and none is variadic); otherwise the call
raises `TypeError` before the function body runs. -/
def keysMatch (args : List (String × String)) (params : List String) : Bool :=
  params.all (fun p => args.any (fun a => a.fst = p)) &&
  args.all (fun a => params.any (fun p => p = a.fst))

/-- The guarded call `func(**arguments)` inside the `try` block of
`execute_tool_call`: `.error` is a raised exception (here only the
`TypeError` of keyword unpacking — the tool bodies themselves do not raise),
`.ok` carries the stringified result together with the updated store.
`has_task` returns a boolean, which `str(result)` renders as `True`/`False`. -/
def invoke_tool (ts : TaskStore) (tool_name : String)
    (arguments : List (String × String)) : Except String (String × TaskStore) :=
  if tool_name = "add_task" then
    if keysMatch arguments ["name", "description"] then
      match lookupArg arguments "name", lookupArg arguments "description" with
      | some n, some d => Except.ok (add_task ts n d)
      | _, _ => Except.error "add_task() missing required argument"
    else Except.error "add_task() got an unexpected or missing keyword argument"
  else if tool_name = "list_tasks" then
    if keysMatch arguments [] then Except.ok (list_tasks ts, ts)
    else Except.error "list_tasks() got an unexpected keyword argument"
  else if tool_name = "mark_task_done" then
    if keysMatch arguments ["name"] then
      match lookupArg arguments "name" with
      | some n => Except.ok (mark_task_done ts n)
      | none => Except.error "mark_task_done() missing required argument"
    else Except.error "mark_task_done() got an unexpected or missing keyword argument"
  else if tool_name = "has_task" then
    if keysMatch arguments ["name"] then
      match lookupArg arguments "name" with
      | some n => Except.ok (if has_task ts n then "True" else "False", ts)
      | none => Except.error "has_task() missing required argument"
    else Except.error "has_task() got an unexpected or missing keyword argument"
  else
    Except.error "unreachable: dispatch checks registration first"

/-- Function `execute_tool_call(tool_name, arguments)` from `tools.py`: unknown names
yield an "Unknown tool" string, a raised invocation is caught and rendered as
an "Error executing ..." string, and a successful invocation's result is
returned stringified.  Dispatch itself never raises, so the embedding is a
total function. -/
def execute_tool_call (ts : TaskStore) (tool_name : String)
    (arguments : List (String × String)) : String × TaskStore :=
  if registeredTools.contains tool_name then
    match invoke_tool ts tool_name arguments with
    | Except.ok (r, ts2) => (r, ts2)
    | Except.error e => ("Error executing " ++ tool_name ++ ": " ++ e, ts)
  else
    ("Unknown tool: " ++ tool_name, ts)

/-! ## Sequences of store operations

Used to state store invariants over every reachable state: everything that
touches `_tasks` goes through these four functions. -/

/-- One call to a task-store function. -/
inductive StoreOp where
  | add (n description : String)
  | listAll
  | markDone (n : String)
  | has (n : String)
deriving Repr, DecidableEq

/-- The store after one operation (list/has are read-only). -/
def applyOp (ts : TaskStore) (op : StoreOp) : TaskStore :=
  match op with
  | StoreOp.add n d => (add_task ts n d).2
  | StoreOp.listAll => ts
  | StoreOp.markDone n => (mark_task_done ts n).2
  | StoreOp.has _ => ts

/-- The store after a sequence of operations. -/
def applyOps (ts : TaskStore) (ops : List StoreOp) : TaskStore :=
  ops.foldl applyOp ts

/-- Whether a sequence of operations ever adds a task under name `n`. -/
def addsName (ops : List StoreOp) (n : String) : Bool :=
  ops.any (fun op => match op with
    | StoreOp.add m _ => m = n
    | _ => false)

/-! ## Conversation loop (`chat_with_ollama` in `ollama-example.py`)

The completion client is an external collaborator, so each of the (up to two)
`completion(...)` calls of one loop iteration is an oracle outcome: either it
raises or it returns a response.  A tool invocation request has its
`function.arguments` JSON already decoded into an argument bag, matching the
`json.loads` step of the loop body. -/

/-- One entry of `response.choices[0].message.tool_calls`. -/
structure ToolCall where
  mk ::
  tid : String
  fname : String
  args : List (String × String)
deriving Repr, DecidableEq

/-- The message `response.choices[0].message`: text plus requested tool invocations. -/
structure ModelResponse where
  mk ::
  content : String
  tool_calls : List ToolCall
deriving Repr, DecidableEq

/-- One entry of `conversation_history`. `assistantCalls` is the
`model_dump()` of an assistant message that carries invocation requests;
`tool` carries the result text, the invocation id and the function name. -/
inductive Message where
  | user (content : String)
  | assistant (content : String)
  | assistantCalls (content : String) (calls : List ToolCall)
  | tool (content : String) (tool_call_id : String) (fname : String)
deriving Repr, DecidableEq

/-- The outcome of one `completion(...)` call. -/
inductive CompletionOutcome where
  | raises
  | returns (r : ModelResponse)
deriving Repr, DecidableEq

/-- The state owned by the loop: the transcript and the task store. -/
structure ChatState where
  mk ::
  history : List Message
  store : TaskStore
deriving Repr, DecidableEq

/-- Drop leading whitespace characters from a character list. -/
def dropWs : List Char → List Char
  | [] => []
  | c :: cs => if c.isWhitespace then dropWs cs else c :: cs

/-- Python's `str.strip()`: remove leading and trailing whitespace. -/
def pyStrip (s : String) : String :=
  String.mk ((dropWs (dropWs s.data).reverse).reverse)

/-- Python's `str.lower()` (ASCII case fold suffices for the exit words). -/
def pyLower (s : String) : String :=
  String.mk (s.data.map Char.toLower)

/-- The test `user_input.lower() in ['quit', 'exit', 'bye', 'q']`. -/
def isExitCommand (s : String) : Bool :=
  ["quit", "exit", "bye", "q"].contains (pyLower s)

/-- The `for tool_call in ...` loop: executes each requested invocation in
order against the threaded store and emits one tool-role message per
invocation. -/
def execCalls (ts : TaskStore) (calls : List ToolCall) :
    List Message × TaskStore :=
  match calls with
  | [] => ([], ts)
  | c :: rest =>
    let r := execute_tool_call ts c.fname c.args
    let tail := execCalls r.2 rest
    (Message.tool r.1 c.tid c.fname :: tail.1, tail.2)

/-- One iteration of the `while True` loop of `chat_with_ollama`, given the
raw input line and the oracle outcomes of the first and the follow-up
completion call.  `none` is `break` (an exit command); `some` is the state
carried into the next iteration.  The `try`/`except` of the loop body means a
raising completion call only stops the current iteration — note the user
message was already appended before the first call. -/
def chatTurn (st : ChatState) (line : String)
    (first : CompletionOutcome) (second : CompletionOutcome) :
    Option ChatState :=
  let user_input := pyStrip line
  if isExitCommand user_input then
    none
  else if user_input = "" then
    some st
  else
    let hist1 := st.history ++ [Message.user user_input]
    match first with
    | CompletionOutcome.raises => some (ChatState.mk hist1 st.store)
    | CompletionOutcome.returns resp =>
      if resp.tool_calls.isEmpty then
        some (ChatState.mk (hist1 ++ [Message.assistant resp.content]) st.store)
      else
        let hist2 := hist1 ++ [Message.assistantCalls resp.content resp.tool_calls]
        let er := execCalls st.store resp.tool_calls
        let hist3 := hist2 ++ er.1
        match second with
        | CompletionOutcome.raises => some (ChatState.mk hist3 er.2)
        | CompletionOutcome.returns fin =>
          some (ChatState.mk (hist3 ++ [Message.assistant fin.content]) er.2)

/-- The whole loop over a list of iteration inputs: stops at the first
iteration that breaks, otherwise folds the state through. -/
def chatRun (st : ChatState)
    (events : List (String × CompletionOutcome × CompletionOutcome)) :
    ChatState :=
  match events with
  | [] => st
  | (line, f, s) :: rest =>
    match chatTurn st line f s with
    | none => st
    | some st2 => chatRun st2 rest

/-! ## Supporting lemmas about the store -/

/-- A name is in the store exactly when some stored task carries it. -/
theorem memStore_iff (ts : TaskStore) (n : String) :
    memStore ts n = true ↔ ∃ t ∈ ts, t.tname = n := by
  simp [memStore, List.any_eq_true]

/-- Mapping a rename-free function over the store does not change which
names are present. -/
theorem memStore_map_preserving (f : Task → Task)
    (hf : ∀ t, (f t).tname = t.tname) (ts : TaskStore) (n : String) :
    memStore (ts.map f) n = memStore ts n := by
  induction ts with
  | nil => rfl
  | cons a as ih =>
    simp only [memStore, List.map_cons, List.any_cons, hf a] at *
    rw [ih]

/-- The in-place update of `storeSet` never renames an entry. -/
theorem update_preserves_tname (t u : Task) :
    (if u.tname = t.tname then t else u).tname = u.tname := by
  by_cases h : u.tname = t.tname <;> simp [h]

/-- Dictionary assignment makes the key present. -/
theorem memStore_storeSet_self (ts : TaskStore) (t : Task) :
    memStore (storeSet ts t) t.tname = true := by
  unfold storeSet
  by_cases h : memStore ts t.tname
  · rw [if_pos h, memStore_map_preserving _ (update_preserves_tname t)]
    exact h
  · rw [if_neg h]
    simp [memStore]

/-- Dictionary assignment affects no other key. -/
theorem memStore_storeSet_other (ts : TaskStore) (t : Task) (n : String)
    (h : t.tname ≠ n) :
    memStore (storeSet ts t) n = memStore ts n := by
  unfold storeSet
  by_cases hm : memStore ts t.tname
  · rw [if_pos hm, memStore_map_preserving _ (update_preserves_tname t)]
  · rw [if_neg hm]
    simp [memStore, h]

/-- Dictionary assignment keeps every previously present key present. -/
theorem memStore_storeSet_mono (ts : TaskStore) (t : Task) (n : String)
    (h : memStore ts n = true) :
    memStore (storeSet ts t) n = true := by
  by_cases he : t.tname = n
  · subst he; exact memStore_storeSet_self ts t
  · rw [memStore_storeSet_other ts t n he]; exact h

/-- Marking done changes no key's presence. -/
theorem memStore_mark_task_done (ts : TaskStore) (m n : String) :
    memStore (mark_task_done ts m).2 n = memStore ts n := by
  unfold mark_task_done
  by_cases h : memStore ts m
  · rw [if_pos h]
    exact memStore_map_preserving _ (fun t => by by_cases ht : t.tname = m <;> simp [ht]) ts n
  · rw [if_neg h]

/-- No store operation removes a present key. -/
theorem memStore_applyOp_mono (ts : TaskStore) (op : StoreOp) (n : String)
    (h : memStore ts n = true) :
    memStore (applyOp ts op) n = true := by
  cases op with
  | add m d => exact memStore_storeSet_mono ts _ n h
  | listAll => exact h
  | markDone m => rw [applyOp, memStore_mark_task_done]; exact h
  | has m => exact h

/-- An absent key stays absent under operations that do not add it. -/
theorem memStore_applyOp_absent (ts : TaskStore) (op : StoreOp) (n : String)
    (h : memStore ts n = false)
    (hop : ∀ m d, op = StoreOp.add m d → m ≠ n) :
    memStore (applyOp ts op) n = false := by
  cases op with
  | add m d =>
    rw [applyOp, add_task]
    rw [memStore_storeSet_other ts _ n (hop m d rfl)]
    exact h
  | listAll => exact h
  | markDone m => rw [applyOp, memStore_mark_task_done]; exact h
  | has m => exact h

/-- Looking up the assigned key after an in-place update yields the new
record. -/
theorem find?_map_update (ts : TaskStore) (t : Task)
    (h : memStore ts t.tname = true) :
    (ts.map (fun u => if u.tname = t.tname then t else u)).find?
      (fun u => u.tname = t.tname) = some t := by
  induction ts with
  | nil => simp [memStore] at h
  | cons a as ih =>
    by_cases ha : a.tname = t.tname
    · simp [List.find?, ha]
    · have h' : memStore as t.tname = true := by
        simpa [memStore, List.any_cons, ha] using h
      simp [List.find?, ha, ih h']

/-- Looking up the assigned key after dictionary assignment yields the new
record. -/
theorem find?_storeSet (ts : TaskStore) (t : Task) :
    (storeSet ts t).find? (fun u => u.tname = t.tname) = some t := by
  unfold storeSet
  by_cases h : memStore ts t.tname
  · rw [if_pos h]; exact find?_map_update ts t h
  · rw [if_neg h]
    have hn : ts.find? (fun u => u.tname = t.tname) = none := by
      rw [List.find?_eq_none]
      intro u hu hut
      have : memStore ts t.tname = true :=
        (memStore_iff ts t.tname).2 ⟨u, hu, by simpa using hut⟩
      simp [this] at h
    simp [List.find?_append, hn, List.find?]

/-- Uniqueness of the names listed in the store. -/
def nodupNames (ts : TaskStore) : Prop :=
  (ts.map Task.tname).Nodup

/-- A rename-free map leaves the name listing unchanged. -/
theorem tnames_map_preserving (f : Task → Task)
    (hf : ∀ t, (f t).tname = t.tname) (ts : TaskStore) :
    (ts.map f).map Task.tname = ts.map Task.tname := by
  induction ts with
  | nil => rfl
  | cons a as ih => simp [hf a, ih]

/-- Dictionary assignment preserves uniqueness of names. -/
theorem nodupNames_storeSet (ts : TaskStore) (t : Task)
    (h : nodupNames ts) : nodupNames (storeSet ts t) := by
  unfold storeSet
  by_cases hm : memStore ts t.tname
  · rw [if_pos hm]
    unfold nodupNames
    rw [tnames_map_preserving _ (update_preserves_tname t)]
    exact h
  · rw [if_neg hm]
    unfold nodupNames at *
    rw [List.map_append]
    rw [List.nodup_append]
    refine ⟨h, by simp, ?_⟩
    intro x hx hx'
    simp at hx'
    subst hx'
    obtain ⟨u, hu, hut⟩ := List.mem_map.1 hx
    have : memStore ts t.tname = true :=
      (memStore_iff ts t.tname).2 ⟨u, hu, hut⟩
    simp [this] at hm

/-- In a store with unique names, exactly one entry carries the assigned
key after dictionary assignment. -/
theorem countP_storeSet (ts : TaskStore) (t : Task) (h : nodupNames ts) :
    (storeSet ts t).countP (fun u => u.tname = t.tname) = 1 := by
  unfold storeSet
  by_cases hm : memStore ts t.tname
  · rw [if_pos hm]
    rw [List.countP_map]
    have hpt : ∀ u ∈ ts,
        (((fun u => decide (u.tname = t.tname))
            ∘ (fun u => if u.tname = t.tname then t else u)) u = true)
          ↔ (decide (u.tname = t.tname) = true) := by
      intro u _
      by_cases hu : u.tname = t.tname <;> simp [hu]
    rw [List.countP_congr hpt]
    have hcount : ts.countP (fun u => decide (u.tname = t.tname))
        = (ts.map Task.tname).count t.tname := by
      rw [List.count, List.countP_map]
      apply List.countP_congr
      intro u _
      simp [beq_iff_eq]
    rw [hcount]
    apply List.count_eq_one_of_mem h
    obtain ⟨u, hu, hut⟩ := (memStore_iff ts t.tname).1 hm
    exact List.mem_map.2 ⟨u, hu, hut⟩
  · rw [if_neg hm]
    rw [List.countP_append]
    have h0 : ts.countP (fun u => decide (u.tname = t.tname)) = 0 := by
      rw [List.countP_eq_zero]
      intro u hu
      simp only [decide_eq_true_eq]
      intro hut
      have : memStore ts t.tname = true :=
        (memStore_iff ts t.tname).2 ⟨u, hu, hut⟩
      simp [this] at hm
    rw [h0]
    simp

/-- Every record stored under the assigned key after dictionary assignment
is the assigned record. -/
theorem mem_storeSet_eq (ts : TaskStore) (t u : Task)
    (hu : u ∈ storeSet ts t) (hn : u.tname = t.tname) : u = t := by
  unfold storeSet at hu
  by_cases hm : memStore ts t.tname
  · rw [if_pos hm] at hu
    obtain ⟨v, _, hv⟩ := List.mem_map.1 hu
    by_cases hvt : v.tname = t.tname
    · rw [if_pos hvt] at hv; exact hv.symm
    · rw [if_neg hvt] at hv
      subst hv
      exact absurd hn hvt
  · rw [if_neg hm] at hu
    rcases List.mem_append.1 hu with hmem | hmem
    · exfalso
      have : memStore ts t.tname = true :=
        (memStore_iff ts t.tname).2 ⟨u, hmem, hn⟩
      simp [this] at hm
    · simpa using hmem

/-! ## Supporting lemmas about the tool-calling round -/

/-- One tool message is produced per requested invocation. -/
theorem execCalls_length (ts : TaskStore) (calls : List ToolCall) :
    (execCalls ts calls).1.length = calls.length := by
  induction calls generalizing ts with
  | nil => rfl
  | cons c rest ih => simp [execCalls, ih]

/-- The i-th produced message is a tool-role message carrying the i-th
invocation's id and function name. -/
theorem execCalls_get? (ts : TaskStore) (calls : List ToolCall) (i : Nat)
    (h : i < calls.length) :
    ∃ txt, (execCalls ts calls).1[i]?
      = some (Message.tool txt (calls.get ⟨i, h⟩).tid (calls.get ⟨i, h⟩).fname) := by
  induction calls generalizing ts i with
  | nil => simp at h
  | cons c rest ih =>
    cases i with
    | zero => exact ⟨(execute_tool_call ts c.fname c.args).1, by simp [execCalls]⟩
    | succ j =>
      have hj : j < rest.length := Nat.lt_of_succ_lt_succ h
      obtain ⟨txt, htxt⟩ := ih (execute_tool_call ts c.fname c.args).2 j hj
      exact ⟨txt, by simpa [execCalls] using htxt⟩

/-- The two fixed console strings of `list_tasks` are distinct whatever the
task lines are. -/
theorem current_tasks_ne_no_tasks (s : String) :
    "Current tasks:\n" ++ s ≠ "No tasks found." := by
  intro h
  have hd := congrArg (fun str => str.data.head?) h
  simp only [String.data_append] at hd
  simp [String.data] at hd

/-! ## Claim theorems -/

/-- C4: for every valid (name, description) pair, `add_task` followed by
`has_task` on that name yields true; and `has_task` on a name never added
over any operation sequence from the empty store yields false. -/
theorem C4_add_then_has (ts : TaskStore) (n d : String) (ops : List StoreOp)
    (h : addsName ops n = false) :
    has_task (add_task ts n d).2 n = true
    ∧ has_task (applyOps [] ops) n = false := by
  constructor
  · exact memStore_storeSet_self ts (Task.mk n d false)
  · have main : ∀ (l : List StoreOp) (ts0 : TaskStore),
        memStore ts0 n = false → addsName l n = false →
        memStore (applyOps ts0 l) n = false := by
      intro l
      induction l with
      | nil => intro ts0 h0 _; exact h0
      | cons op rest ih =>
        intro ts0 h0 hops
        rw [addsName, List.any_cons, Bool.or_eq_false_iff] at hops
        refine ih (applyOp ts0 op) ?_ hops.2
        apply memStore_applyOp_absent ts0 op n h0
        intro m d hop hmn
        subst hop
        have := hops.1
        simp [hmn] at this
    exact main ops [] rfl h

/-- C4 witness at a concrete instance. -/
theorem C4_add_then_has_witness :
    addsName [StoreOp.add "a" "x", StoreOp.markDone "b"] "b" = false
    ∧ (has_task (add_task [] "b" "y").2 "b" = true
       ∧ has_task (applyOps [] [StoreOp.add "a" "x", StoreOp.markDone "b"]) "b"
           = false) :=
  ⟨by decide,
   C4_add_then_has [] "b" "y" [StoreOp.add "a" "x", StoreOp.markDone "b"]
     (by decide)⟩

/-- C9: no store operation removes an entry — once `has_task` is true for a
name, it remains true after any further sequence of the four operations. -/
theorem C9_tasks_never_deleted (ts : TaskStore) (n : String)
    (ops : List StoreOp) (h : has_task ts n = true) :
    has_task (applyOps ts ops) n = true := by
  induction ops generalizing ts with
  | nil => exact h
  | cons op rest ih => exact ih (applyOp ts op) (memStore_applyOp_mono ts op n h)

/-- C9 witness at a concrete instance. -/
theorem C9_tasks_never_deleted_witness :
    has_task [Task.mk "a" "d" false] "a" = true
    ∧ has_task (applyOps [Task.mk "a" "d" false]
        [StoreOp.markDone "a", StoreOp.add "b" "e", StoreOp.has "a",
         StoreOp.listAll]) "a" = true :=
  ⟨by decide,
   C9_tasks_never_deleted [Task.mk "a" "d" false] "a"
     [StoreOp.markDone "a", StoreOp.add "b" "e", StoreOp.has "a",
      StoreOp.listAll] (by decide)⟩

/-- C10: re-adding an existing name overwrites the whole record, so its
completed flag is false again afterwards: after `add_task`, the entry found
under the name, and indeed every entry carrying the name, is the fresh
record with `completed = false` — whatever flag (for instance the true flag
set by `mark_task_done`) the old record carried. -/
theorem C10_add_task_resets_completed (ts : TaskStore) (n d : String) :
    (add_task ts n d).2.find? (fun t => t.tname = n) = some (Task.mk n d false)
    ∧ ∀ t ∈ (add_task ts n d).2, t.tname = n → t = Task.mk n d false := by
  constructor
  · exact find?_storeSet ts (Task.mk n d false)
  · intro t ht hn
    exact mem_storeSet_eq ts (Task.mk n d false) t ht hn

/-- C10 witness: a task marked done reverts to pending when re-added. -/
theorem C10_add_task_resets_completed_witness :
    Task.mk "a" "d1" false ∈ (add_task [Task.mk "a" "d0" true] "a" "d1").2
    ∧ (Task.mk "a" "d1" false).tname = "a"
    ∧ ((add_task [Task.mk "a" "d0" true] "a" "d1").2.find?
          (fun t => t.tname = "a") = some (Task.mk "a" "d1" false)
       ∧ Task.mk "a" "d1" false = Task.mk "a" "d1" false) :=
  ⟨by decide, by decide,
   (C10_add_task_resets_completed [Task.mk "a" "d0" true] "a" "d1").1,
   (C10_add_task_resets_completed [Task.mk "a" "d0" true] "a" "d1").2
     (Task.mk "a" "d1" false) (by decide) (by decide)⟩

/-- C5: `add_task` is idempotent-overwrite — adding the same name twice (on
any store with unique names) leaves exactly one entry for that name, with
only the second description retrievable, the `list_tasks` output has one
line per stored entry (so the name's entry appears once), and the second
add returns the ordinary success message (the overwrite is silent). -/
theorem C5_add_task_overwrite (ts : TaskStore) (n d1 d2 : String)
    (h : nodupNames ts) :
    ((add_task (add_task ts n d1).2 n d2).2).countP (fun t => t.tname = n) = 1
    ∧ ((add_task (add_task ts n d1).2 n d2).2).find? (fun t => t.tname = n)
        = some (Task.mk n d2 false)
    ∧ (((add_task (add_task ts n d1).2 n d2).2).map taskLine).length
        = ((add_task (add_task ts n d1).2 n d2).2).length
    ∧ (add_task (add_task ts n d1).2 n d2).1
        = "Task '" ++ n ++ "' added successfully. Task description is: " ++ d2 := by
  have h1 : nodupNames (add_task ts n d1).2 :=
    nodupNames_storeSet ts (Task.mk n d1 false) h
  exact ⟨countP_storeSet (add_task ts n d1).2 (Task.mk n d2 false) h1,
    find?_storeSet (add_task ts n d1).2 (Task.mk n d2 false),
    by simp, rfl⟩

/-- C5 witness at a concrete instance. -/
theorem C5_add_task_overwrite_witness :
    nodupNames [Task.mk "z" "w" false]
    ∧ (((add_task (add_task [Task.mk "z" "w" false] "a" "d1").2 "a" "d2").2).countP
          (fun t => t.tname = "a") = 1
       ∧ ((add_task (add_task [Task.mk "z" "w" false] "a" "d1").2 "a" "d2").2).find?
            (fun t => t.tname = "a") = some (Task.mk "a" "d2" false)
       ∧ (((add_task (add_task [Task.mk "z" "w" false] "a" "d1").2 "a" "d2").2).map
            taskLine).length
          = ((add_task (add_task [Task.mk "z" "w" false] "a" "d1").2 "a" "d2").2).length
       ∧ (add_task (add_task [Task.mk "z" "w" false] "a" "d1").2 "a" "d2").1
          = "Task '" ++ "a" ++ "' added successfully. Task description is: " ++ "d2") :=
  ⟨by simp [nodupNames],
   C5_add_task_overwrite [Task.mk "z" "w" false] "a" "d1" "d2"
     (by simp [nodupNames])⟩

/-- C6: `mark_task_done` on an absent name returns the not-found message and
leaves the store untouched; on a present name it returns the confirmation,
every entry under the name has its completed flag set, and `list_tasks` on
the new store lists that task's line with the done marker. -/
theorem C6_mark_task_done_spec (ts : TaskStore) (n : String) :
    (has_task ts n = false →
       mark_task_done ts n = ("Task '" ++ n ++ "' not found.", ts))
    ∧ (has_task ts n = true →
       (mark_task_done ts n).1 = "Task '" ++ n ++ "' marked as completed."
       ∧ (∀ t ∈ (mark_task_done ts n).2, t.tname = n → t.completed = true)
       ∧ ∃ t, t ∈ (mark_task_done ts n).2 ∧ t.tname = n ∧ t.completed = true
           ∧ taskLine t = "- " ++ n ++ ": " ++ t.description ++ " (✅ Done)"
           ∧ taskLine t ∈ ((mark_task_done ts n).2).map taskLine
           ∧ list_tasks (mark_task_done ts n).2
               = "Current tasks:\n"
                 ++ String.intercalate "\n"
                     (((mark_task_done ts n).2).map taskLine)) := by
  constructor
  · intro h
    rw [mark_task_done, if_neg (by simp [has_task] at h; simp [h])]
  · intro h
    have hmem := h
    rw [has_task] at hmem
    have heq : mark_task_done ts n
        = ("Task '" ++ n ++ "' marked as completed.",
           ts.map (fun t => if t.tname = n then Task.mk t.tname t.description true
                            else t)) := by
      rw [mark_task_done, if_pos hmem]
    obtain ⟨u, hu, hun⟩ := (memStore_iff ts n).1 hmem
    refine ⟨by rw [heq], ?_, ?_⟩
    · intro t ht htn
      rw [heq] at ht
      obtain ⟨v, hv, hvt⟩ := List.mem_map.1 ht
      by_cases hvn : v.tname = n
      · rw [if_pos hvn] at hvt; rw [← hvt]
      · rw [if_neg hvn] at hvt
        subst hvt
        exact absurd htn hvn
    · refine ⟨Task.mk u.tname u.description true, ?_, hun, rfl, ?_, ?_, ?_⟩
      · rw [heq]
        exact List.mem_map.2 ⟨u, hu, by rw [if_pos hun]⟩
      · rw [taskLine, hun]
        rw [String.append_assoc, String.append_assoc]
        rfl
      · rw [heq]
        apply List.mem_map.2
        refine ⟨Task.mk u.tname u.description true, ?_, rfl⟩
        exact List.mem_map.2 ⟨u, hu, by rw [if_pos hun]⟩
      · have hne : ((mark_task_done ts n).2).isEmpty = false := by
          rw [heq]
          cases ts with
          | nil => simp at hu
          | cons a as => simp
        rw [list_tasks, if_neg (by simp [hne])]

/-- C8: `list_tasks` returns the literal no-tasks message exactly when the
store is empty; on a non-empty store it returns the header plus one line per
stored task, each line carrying the task's name, description and the status
marker of its completed flag. -/
theorem C8_list_tasks_spec (ts : TaskStore) :
    (list_tasks ts = "No tasks found." ↔ ts = [])
    ∧ (ts ≠ [] →
        list_tasks ts
          = "Current tasks:\n" ++ String.intercalate "\n" (ts.map taskLine)
        ∧ (ts.map taskLine).length = ts.length
        ∧ ∀ t ∈ ts, taskLine t
            = "- " ++ t.tname ++ ": " ++ t.description ++ " ("
              ++ (if t.completed then "✅ Done" else "⏳ Pending") ++ ")") := by
  constructor
  · constructor
    · intro h
      by_contra hne
      rw [list_tasks, if_neg (by simpa using hne)] at h
      exact current_tasks_ne_no_tasks _ h
    · intro h; subst h; rfl
  · intro hne
    refine ⟨?_, by simp, fun t _ => rfl⟩
    rw [list_tasks, if_neg (by simpa using hne)]

/-- C8 witness at a concrete instance. -/
theorem C8_list_tasks_spec_witness :
    ([Task.mk "a" "d" true] : TaskStore) ≠ []
    ∧ (list_tasks [Task.mk "a" "d" true] = "No tasks found."
        ↔ ([Task.mk "a" "d" true] : TaskStore) = []) :=
  ⟨by simp, (C8_list_tasks_spec [Task.mk "a" "d" true]).1⟩

/-- C6 witness: absent and present name at a concrete store. -/
theorem C6_mark_task_done_spec_witness :
    has_task ([Task.mk "a" "d" false] : TaskStore) "x" = false
    ∧ mark_task_done [Task.mk "a" "d" false] "x"
        = ("Task '" ++ "x" ++ "' not found.", [Task.mk "a" "d" false])
    ∧ has_task ([Task.mk "a" "d" false] : TaskStore) "a" = true
    ∧ (mark_task_done [Task.mk "a" "d" false] "a").1
        = "Task '" ++ "a" ++ "' marked as completed." :=
  ⟨by decide,
   (C6_mark_task_done_spec [Task.mk "a" "d" false] "x").1 (by decide),
   by decide,
   ((C6_mark_task_done_spec [Task.mk "a" "d" false] "a").2 (by decide)).1⟩

/-- C3: tool dispatch never raises — an unregistered name yields the
"Unknown tool" string with the store untouched; a registered invocation
that raises is caught and rendered as an "Error executing <name>: <detail>"
string with the store untouched; a successful invocation's result is
returned stringified (booleans from `has_task` become `True`/`False`). -/
theorem C3_execute_tool_call_total (ts : TaskStore) (tool_name : String)
    (args : List (String × String)) :
    (registeredTools.contains tool_name = false →
       execute_tool_call ts tool_name args = ("Unknown tool: " ++ tool_name, ts))
    ∧ (registeredTools.contains tool_name = true →
       (∃ e, invoke_tool ts tool_name args = Except.error e
          ∧ execute_tool_call ts tool_name args
              = ("Error executing " ++ tool_name ++ ": " ++ e, ts))
       ∨ (∃ v ts2, invoke_tool ts tool_name args = Except.ok (v, ts2)
          ∧ execute_tool_call ts tool_name args = (v, ts2)))
    ∧ (∀ m, execute_tool_call ts "has_task" [("name", m)]
          = ((if has_task ts m then "True" else "False"), ts)) := by
  refine ⟨?_, ?_, ?_⟩
  · intro h
    rw [execute_tool_call, if_neg (by rw [h]; exact Bool.false_ne_true)]
  · intro h
    cases hinv : invoke_tool ts tool_name args with
    | error e =>
      left
      exact ⟨e, rfl, by rw [execute_tool_call, if_pos h, hinv]⟩
    | ok p =>
      right
      obtain ⟨v, ts2⟩ := p
      exact ⟨v, ts2, rfl, by rw [execute_tool_call, if_pos h, hinv]⟩
  · intro m
    rfl

/-- C3 witness: an unknown name, a failing registered invocation, and the
stringified boolean path, at concrete inputs. -/
theorem C3_execute_tool_call_total_witness :
    registeredTools.contains "nope" = false
    ∧ execute_tool_call [] "nope" [] = ("Unknown tool: " ++ "nope", [])
    ∧ registeredTools.contains "add_task" = true
    ∧ ((∃ e, invoke_tool [] "add_task" [] = Except.error e
          ∧ execute_tool_call [] "add_task" []
              = ("Error executing " ++ "add_task" ++ ": " ++ e, []))
       ∨ (∃ v ts2, invoke_tool [] "add_task" [] = Except.ok (v, ts2)
          ∧ execute_tool_call [] "add_task" [] = (v, ts2)))
    ∧ execute_tool_call [] "has_task" [("name", "a")]
        = ((if has_task [] "a" then "True" else "False"), []) :=
  ⟨by decide,
   (C3_execute_tool_call_total [] "nope" []).1 (by decide),
   by decide,
   (C3_execute_tool_call_total [] "add_task" []).2.1 (by decide),
   (C3_execute_tool_call_total [] "has_task" [("name", "a")]).2.2 "a"⟩

/-- C1: a tool-calling round with N ≥ 1 requested invocations appends, after
the user message of that turn, exactly N+2 transcript entries — the
assistant message carrying the invocation requests, then one tool-role
message per invocation in the order received (each carrying the result text,
the invocation id and the function name), then the final assistant message
from the follow-up completion call. -/
theorem C1_tool_calling_round (st : ChatState) (line : String)
    (resp fin : ModelResponse)
    (hx : isExitCommand (pyStrip line) = false) (he : pyStrip line ≠ "")
    (hn : resp.tool_calls ≠ []) :
    chatTurn st line (CompletionOutcome.returns resp)
        (CompletionOutcome.returns fin)
      = some (ChatState.mk
          (st.history ++ [Message.user (pyStrip line)]
            ++ (Message.assistantCalls resp.content resp.tool_calls
                 :: (execCalls st.store resp.tool_calls).1
                 ++ [Message.assistant fin.content]))
          (execCalls st.store resp.tool_calls).2)
    ∧ (Message.assistantCalls resp.content resp.tool_calls
         :: (execCalls st.store resp.tool_calls).1
         ++ [Message.assistant fin.content]).length
        = resp.tool_calls.length + 2
    ∧ ∀ i (h : i < resp.tool_calls.length),
        ∃ txt, (execCalls st.store resp.tool_calls).1[i]?
          = some (Message.tool txt (resp.tool_calls.get ⟨i, h⟩).tid
                                   (resp.tool_calls.get ⟨i, h⟩).fname) := by
  refine ⟨?_, ?_, fun i h => execCalls_get? st.store resp.tool_calls i h⟩
  · rw [chatTurn]
    simp only [hx, Bool.false_eq_true, if_false, he, if_neg he]
    rw [if_neg (by simp [hn])]
    simp [List.append_assoc]
  · simp [execCalls_length]

/-- C2 (counterexample to the claim as stated): a turn whose completion call
raises does leave an entry in the transcript — the user message appended
before the call. -/
theorem C2_transcript_modified_counterexample :
    chatTurn (ChatState.mk [] []) "hello" CompletionOutcome.raises
        CompletionOutcome.raises
      = some (ChatState.mk [Message.user "hello"] [])
    ∧ ([Message.user "hello"] : List Message) ≠ [] :=
  ⟨rfl, by simp⟩

/-- C2 (amended): when the completion call of a turn raises, the error is
caught and the loop continues; the task store is unchanged and no assistant
or tool message from that turn is appended — but the user message appended
before the failed call remains in the transcript. -/
theorem C2_completion_failure_turn (st : ChatState) (line : String)
    (second : CompletionOutcome)
    (hx : isExitCommand (pyStrip line) = false) (he : pyStrip line ≠ "") :
    chatTurn st line CompletionOutcome.raises second
      = some (ChatState.mk (st.history ++ [Message.user (pyStrip line)]) st.store) := by
  rw [chatTurn]
  simp only [hx, Bool.false_eq_true, if_false, if_neg he]

/-- C2 witness at a concrete instance. -/
theorem C2_completion_failure_turn_witness :
    isExitCommand (pyStrip "hello") = false ∧ pyStrip "hello" ≠ ""
    ∧ chatTurn (ChatState.mk [Message.assistant "hi"] []) "hello"
          CompletionOutcome.raises CompletionOutcome.raises
        = some (ChatState.mk
            ([Message.assistant "hi"] ++ [Message.user (pyStrip "hello")]) []) :=
  ⟨by decide, by decide,
   C2_completion_failure_turn (ChatState.mk [Message.assistant "hi"] []) "hello"
     CompletionOutcome.raises (by decide) (by decide)⟩

/-- C7: an exit command (case-insensitive quit/exit/bye/q, after stripping)
terminates the loop at any turn without appending to the transcript and
independently of the completion oracle (so no completion call is consulted);
in particular a run whose first input is an exit command ends with the
transcript still empty. -/
theorem C7_exit_command_terminates (st : ChatState) (line : String)
    (f s : CompletionOutcome)
    (rest : List (String × CompletionOutcome × CompletionOutcome))
    (ts0 : TaskStore)
    (hx : isExitCommand (pyStrip line) = true) :
    chatTurn st line f s = none
    ∧ chatRun (ChatState.mk [] ts0) ((line, f, s) :: rest)
        = ChatState.mk [] ts0 := by
  have h1 : ∀ st' : ChatState, chatTurn st' line f s = none := by
    intro st'
    rw [chatTurn]
    simp only [hx, if_true]
  exact ⟨h1 st, by rw [chatRun, h1]⟩

/-- C7 witness: "QUIT" (after stripping, case-insensitively) as the first
input terminates with an empty transcript. -/
theorem C7_exit_command_terminates_witness :
    isExitCommand (pyStrip "  Quit ") = true
    ∧ chatTurn (ChatState.mk [Message.user "x"] []) "  Quit "
        CompletionOutcome.raises CompletionOutcome.raises = none
    ∧ chatRun (ChatState.mk [] [])
        [("  Quit ", CompletionOutcome.raises, CompletionOutcome.raises)]
        = ChatState.mk [] [] :=
  ⟨by decide,
   (C7_exit_command_terminates (ChatState.mk [Message.user "x"] []) "  Quit "
      CompletionOutcome.raises CompletionOutcome.raises [] [] (by decide)).1,
   (C7_exit_command_terminates (ChatState.mk [Message.user "x"] []) "  Quit "
      CompletionOutcome.raises CompletionOutcome.raises [] [] (by decide)).2⟩

/-- C1 witness: one requested invocation yields a round of 1+2 appended
entries at a concrete instance. -/
theorem C1_tool_calling_round_witness :
    isExitCommand (pyStrip "hi") = false ∧ pyStrip "hi" ≠ ""
    ∧ ([ToolCall.mk "1" "list_tasks" []] : List ToolCall) ≠ []
    ∧ chatTurn (ChatState.mk [] []) "hi"
        (CompletionOutcome.returns
          (ModelResponse.mk "c" [ToolCall.mk "1" "list_tasks" []]))
        (CompletionOutcome.returns (ModelResponse.mk "ok" []))
      = some (ChatState.mk
          ([] ++ [Message.user (pyStrip "hi")]
            ++ (Message.assistantCalls "c" [ToolCall.mk "1" "list_tasks" []]
                 :: (execCalls [] [ToolCall.mk "1" "list_tasks" []]).1
                 ++ [Message.assistant "ok"]))
          (execCalls [] [ToolCall.mk "1" "list_tasks" []]).2) :=
  ⟨by decide, by decide, by simp,
   (C1_tool_calling_round (ChatState.mk [] []) "hi"
      (ModelResponse.mk "c" [ToolCall.mk "1" "list_tasks" []])
      (ModelResponse.mk "ok" []) (by decide) (by decide) (by simp)).1⟩

end Playground
